import Mathlib

/-!
Shallow embedding of the drsl string-scanning primitives from
`src/drsl/nextline.hpp`: `nextline` (line splitting), `findfirst`
(single-character search and substring search) and `findfirstof`
(character-set search).

Modelling conventions:
* A buffer is a `List Nat` of code units; the null terminator is the
  unit `0`.  Reading at or past the end of the list yields `0`, so every
  list behaves as a null-terminated buffer.
* A cursor (a `T *` in the C++ source) is a unit offset into a fixed
  buffer, except in the inner set-scanning loop of `findfirstof`, where
  the cursor is represented directly by the remaining suffix of the set
  buffer.
* The character decoder `nextchar` is an external collaborator of the
  library; it is modelled as a bundled `Decoder`: a function from the
  buffer suffix at the cursor to the decoded code point together with
  the number of code units consumed, satisfying the decoder contract
  (terminator decodes to the sentinel 0, non-terminator positions decode
  to a nonzero code point consuming at least one unit and at most the
  remaining units).
* `size_t` values (the `strLength` bounds) are modelled as `Nat` with
  arithmetic taken modulo `2 ^ 64`; the default argument `(size_t)-1`
  is `2 ^ 64 - 1`.
* An output parameter written through a reference becomes a returned
  value; `bool nextline(line, str)` returns the triple
  `(result, line, str)`.
-/

namespace drsl

/-- The modulus of `size_t` arithmetic (a 64-bit platform). -/
def U64 : Nat := 2 ^ 64

/-- The `reference_string` view type: a pair of cursors into a buffer.
The C++ field `end` is named `stop` here (`end` is a Lean keyword). -/
structure reference_string where
  start : Nat
  stop : Nat
  deriving DecidableEq, Repr

/-- Modelled from the spec: the Decoder collaborator (`nextchar`), which is
declared outside this repository.  `dec l` decodes the code point at the
cursor whose remaining buffer suffix is `l`, returning the code point and
the number of code units consumed.  The contract: the terminator position
(next unit 0, or end of buffer) yields the sentinel code point 0; any other
position yields a nonzero code point and consumes at least one and at most
the remaining units. -/
structure Decoder where
  dec : List Nat → Nat × Nat
  term_cp : ∀ l : List Nat, l.headD 0 = 0 → (dec l).1 = 0
  nonterm_cp : ∀ l : List Nat, l.headD 0 ≠ 0 → (dec l).1 ≠ 0
  progress : ∀ l : List Nat, l.headD 0 ≠ 0 → 1 ≤ (dec l).2 ∧ (dec l).2 ≤ l.length

/-- If the decoded code point at offset `s` is nonzero, then `s` is a
position strictly inside the buffer and the decode consumes at least one
unit without running past the end. -/
theorem dec_pos_lt (D : Decoder) (buf : List Nat) (s : Nat)
    (h : (D.dec (buf.drop s)).1 ≠ 0) :
    s < buf.length ∧ 1 ≤ (D.dec (buf.drop s)).2 ∧
      s + (D.dec (buf.drop s)).2 ≤ buf.length := by
  have hd : (buf.drop s).headD 0 ≠ 0 := fun hh => h (D.term_cp _ hh)
  have hne : buf.drop s ≠ [] := by
    intro hnil
    exact hd (by simp [hnil])
  have hlt : s < buf.length := by
    by_contra hge
    exact hne (List.drop_eq_nil_of_le (by omega))
  have hp := D.progress _ hd
  have hlen : (buf.drop s).length = buf.length - s := List.length_drop s buf
  exact ⟨hlt, hp.1, by omega⟩

/-- The unit slice of `buf` from offset `a` (inclusive) to `b` (exclusive). -/
def sliceU (buf : List Nat) (a b : Nat) : List Nat :=
  (buf.drop a).take (b - a)

/-- The decode function of `asciiDec`: each unit is its own code point. -/
def asciiDecFun : List Nat → Nat × Nat
  | [] => (0, 0)
  | u :: _ => (u, 1)

/-- A one-unit-per-code-point decoder (each unit is its own code point),
the shape of a plain ASCII `nextchar`. -/
def asciiDec : Decoder where
  dec := asciiDecFun
  term_cp l h := by cases l <;> simp_all [asciiDecFun]
  nonterm_cp l h := by cases l <;> simp_all [asciiDecFun]
  progress l h := by cases l <;> simp_all [asciiDecFun]

/-- The decode function of `exDec`: a unit below 128 is its own code
point; a unit `u ≥ 128` is a lead unit and decodes together with the
following unit to the code point `u * 256 + next`, consuming two units
(one if the buffer ends right after the lead unit). -/
def exDecFun : List Nat → Nat × Nat
  | [] => (0, 0)
  | u :: rest =>
      if u < 128 then (u, 1)
      else (u * 256 + rest.headD 0, min 2 (u :: rest).length)

/-- A decoder with multi-unit code points, used to exercise the
bound-bookkeeping behavior on code points spanning several units. -/
def exDec : Decoder where
  dec := exDecFun
  term_cp l h := by
    cases l with
    | nil => rfl
    | cons u rest =>
        simp only [List.headD_cons] at h
        simp [exDecFun, h]
  nonterm_cp l h := by
    cases l with
    | nil => simp at h
    | cons u rest =>
        simp only [List.headD_cons] at h
        by_cases hu : u < 128
        · simpa [exDecFun, hu] using h
        · simp only [exDecFun, if_neg hu]
          omega
  progress l h := by
    cases l with
    | nil => simp at h
    | cons u rest =>
        by_cases hu : u < 128
        · simp [exDecFun, hu]
        · simp only [exDecFun, if_neg hu, List.length_cons]
          omega

/-- Projection lemma keeping `asciiDec` folded during evaluation. -/
theorem asciiDec_dec (l : List Nat) : asciiDec.dec l = asciiDecFun l := rfl

/-- Projection lemma keeping `exDec` folded during evaluation. -/
theorem exDec_dec (l : List Nat) : exDec.dec l = exDecFun l := rfl

/-- The scanning loop of `nextline` (`src/drsl/nextline.hpp` lines 38-70):
`st` is the saved `line.start`, `s` is the current value of `str` (which
always coincides with `temp` at the top of the loop).  Returns the
completed line view and the final value of `str`. -/
def nextlineLoop (D : Decoder) (buf : List Nat) (st s : Nat) :
    reference_string × Nat :=
  if h : (D.dec (buf.drop s)).1 = 0 then
    (⟨st, s⟩, s)
  else if (D.dec (buf.drop s)).1 = 13 then
    if (D.dec (buf.drop (s + (D.dec (buf.drop s)).2))).1 = 10 then
      (⟨st, s⟩,
        s + (D.dec (buf.drop s)).2 +
          (D.dec (buf.drop (s + (D.dec (buf.drop s)).2))).2)
    else
      nextlineLoop D buf st (s + (D.dec (buf.drop s)).2)
  else if (D.dec (buf.drop s)).1 = 10 then
    (⟨st, s⟩, s + (D.dec (buf.drop s)).2)
  else
    nextlineLoop D buf st (s + (D.dec (buf.drop s)).2)
termination_by buf.length - s
decreasing_by
  all_goals
    have h2 := dec_pos_lt D buf s h
    omega

/-- `nextline` (`src/drsl/nextline.hpp` lines 24-71).  Takes the current
`line` view and cursor `str`, returns the success flag together with the
updated `line` and `str`. -/
def nextline (D : Decoder) (buf : List Nat) (line : reference_string)
    (str : Nat) : Bool × reference_string × Nat :=
  if (buf.drop str).headD 0 = 0 then
    (false, line, str)
  else
    let r := nextlineLoop D buf str str
    (true, r.1, r.2)

/-- The cursor returned by `nextlineLoop` never moves backwards, and it
stays inside the buffer whenever the starting offset is inside. -/
theorem nextlineLoop_ge (D : Decoder) (buf : List Nat) (st s : Nat) :
    s ≤ (nextlineLoop D buf st s).2 ∧
      (s ≤ buf.length → (nextlineLoop D buf st s).2 ≤ buf.length) := by
  induction s using nextlineLoop.induct D buf st with
  | case1 s h =>
      rw [nextlineLoop]
      simp [h]
  | case2 s h h13 h10 =>
      have h1 := dec_pos_lt D buf s h
      have h2 := dec_pos_lt D buf (s + (D.dec (buf.drop s)).2)
        (by rw [h10]; omega)
      rw [nextlineLoop]
      simp only [dif_neg h, if_pos h13, if_pos h10]
      exact ⟨by omega, fun _ => by omega⟩
  | case3 s h h13 h10 ih =>
      have h1 := dec_pos_lt D buf s h
      rw [nextlineLoop]
      simp only [dif_neg h, if_pos h13, if_neg h10]
      exact ⟨by omega, fun _ => ih.2 (by omega)⟩
  | case4 s h h13 h10 =>
      have h1 := dec_pos_lt D buf s h
      rw [nextlineLoop]
      simp only [dif_neg h, if_neg h13, if_pos h10]
      exact ⟨by omega, fun _ => by omega⟩
  | case5 s h h13 h10 ih =>
      have h1 := dec_pos_lt D buf s h
      rw [nextlineLoop]
      simp only [dif_neg h, if_neg h13, if_neg h10]
      exact ⟨by omega, fun _ => ih.2 (by omega)⟩

/-- Starting on a unit other than the terminator, `nextlineLoop` strictly
advances the cursor and leaves it inside the buffer. -/
theorem nextlineLoop_gt (D : Decoder) (buf : List Nat) (st s : Nat)
    (h : (buf.drop s).headD 0 ≠ 0) :
    s < (nextlineLoop D buf st s).2 ∧ (nextlineLoop D buf st s).2 ≤ buf.length := by
  have hcp : (D.dec (buf.drop s)).1 ≠ 0 := D.nonterm_cp _ h
  have h1 := dec_pos_lt D buf s hcp
  rw [nextlineLoop]
  simp only [dif_neg hcp]
  by_cases h13 : (D.dec (buf.drop s)).1 = 13
  · simp only [if_pos h13]
    by_cases h10 : (D.dec (buf.drop (s + (D.dec (buf.drop s)).2))).1 = 10
    · have h2 := dec_pos_lt D buf (s + (D.dec (buf.drop s)).2) (by rw [h10]; omega)
      simp only [if_pos h10]
      omega
    · simp only [if_neg h10]
      have h3 := nextlineLoop_ge D buf st (s + (D.dec (buf.drop s)).2)
      exact ⟨by omega, h3.2 (by omega)⟩
  · simp only [if_neg h13]
    by_cases h10 : (D.dec (buf.drop s)).1 = 10
    · simp only [if_pos h10]
      omega
    · simp only [if_neg h10]
      have h3 := nextlineLoop_ge D buf st (s + (D.dec (buf.drop s)).2)
      exact ⟨by omega, h3.2 (by omega)⟩

/-- The sequence of `nextline` calls issued by a caller that starts at
offset `s` and keeps feeding the returned cursor back in: each element is
the line view produced by one successful call paired with the cursor value
after that call; iteration stops at the first call that reports no line. -/
def linesRec (D : Decoder) (buf : List Nat) (s : Nat) :
    List (reference_string × Nat) :=
  if h : (buf.drop s).headD 0 = 0 then []
  else
    nextlineLoop D buf s s :: linesRec D buf (nextlineLoop D buf s s).2
termination_by buf.length - s
decreasing_by
  have h1 := nextlineLoop_gt D buf s s h
  omega

/-- The line contents (unit slices) produced by iterating `nextline` over
`buf` from its first unit. -/
def lineViews (D : Decoder) (buf : List Nat) : List (List Nat) :=
  (linesRec D buf 0).map fun r => sliceU buf r.1.start r.1.stop

/-- List-level form of the decoder contract: a nonzero code point consumes
at least one and at most the remaining units. -/
theorem dec_pos (D : Decoder) (l : List Nat) (h : (D.dec l).1 ≠ 0) :
    1 ≤ (D.dec l).2 ∧ (D.dec l).2 ≤ l.length :=
  D.progress l fun hh => h (D.term_cp l hh)

/-- 64-bit unsigned subtraction: the value of `a - b` computed in
`size_t` arithmetic. -/
def sub64 (a b : Nat) : Nat :=
  (a % U64 + U64 - b % U64) % U64

theorem sub64_of_le (a b : Nat) (hb : b ≤ a) (ha : a < U64) :
    sub64 a b = a - b := by
  have hU : 0 < U64 := by decide
  have hbU : b < U64 := lt_of_le_of_lt hb ha
  unfold sub64
  rw [Nat.mod_eq_of_lt ha, Nat.mod_eq_of_lt hbU]
  have h1 : a + U64 - b = (a - b) + U64 := by omega
  rw [h1, Nat.add_mod_right, Nat.mod_eq_of_lt (by omega)]

theorem sub64_lt (a b : Nat) : sub64 a b < U64 :=
  Nat.mod_lt _ (by decide)

/-- Single-character `findfirst` (`src/drsl/nextline.hpp` lines 89-107):
scans `buf` from offset `str` for the code point `character`, with the
`size_t` budget `strLength` (`(size_t)-1`, i.e. `U64 - 1`, when the caller
gives no bound).  The budget is tested against zero before each decode and
decremented by the consumed units after the equality test. -/
def findfirst (D : Decoder) (buf : List Nat) (str : Nat) (character : Nat)
    (strLength : Nat) : Option Nat :=
  if h : 0 < strLength ∧ (D.dec (buf.drop str)).1 ≠ 0 then
    if (D.dec (buf.drop str)).1 = character then some str
    else
      findfirst D buf (str + (D.dec (buf.drop str)).2) character
        (sub64 strLength (D.dec (buf.drop str)).2)
  else none
termination_by buf.length - str
decreasing_by
  have h2 := dec_pos_lt D buf str h.2
  omega

/-- A successful single-character `findfirst` returns a position at or
after the scan start whose decoded code point is the target and nonzero. -/
theorem findfirst_some (D : Decoder) (buf : List Nat) (str character
    strLength p : Nat) :
    findfirst D buf str character strLength = some p →
      str ≤ p ∧ (D.dec (buf.drop p)).1 = character ∧ (D.dec (buf.drop p)).1 ≠ 0 := by
  induction str, character, strLength using findfirst.induct D buf with
  | case1 s L hg =>
      intro h
      rw [findfirst, dif_pos hg, if_pos rfl] at h
      cases h
      exact ⟨le_refl _, rfl, hg.2⟩
  | case2 s c L hg hne ih =>
      intro h
      rw [findfirst, dif_pos hg, if_neg hne] at h
      have h2 := dec_pos_lt D buf s hg.2
      have h3 := ih h
      exact ⟨by omega, h3.2⟩
  | case3 s c L hg =>
      intro h
      rw [findfirst, dif_neg hg] at h
      cases h

/-- Modelled from the spec: the Length collaborator, declared outside this
repository — the code-unit distance from a cursor to the terminator. -/
def length : List Nat → Nat
  | [] => 0
  | u :: rest => if u = 0 then 0 else length rest + 1

/-- Modelled from the spec: the ordinal Comparator collaborator, declared
outside this repository — an ordinal compare over a bounded code-unit
length that stops at the terminator, returning zero exactly on equality
of the compared prefixes. -/
def compare : List Nat → List Nat → Nat → Int
  | _, _, 0 => 0
  | a, b, n + 1 =>
      if a.headD 0 = b.headD 0 then
        if a.headD 0 = 0 then 0 else compare (a.drop 1) (b.drop 1) n
      else (a.headD 0 : Int) - (b.headD 0 : Int)

/-- Modelled from the spec: `getchar str i`, the `i`-th decoded code point
of a buffer (the per-code-unit decoder collaborator, declared outside this
repository); only `getchar str 0` is used by the library. -/
def getchar (D : Decoder) : List Nat → Nat → Nat
  | l, 0 => (D.dec l).1
  | l, i + 1 => getchar D (l.drop (D.dec l).2) i

/-- The retry loop of the substring `findfirst` (`src/drsl/nextline.hpp`
lines 164-170): repeatedly advance to the next occurrence of the needle's
first code point with the (never decremented) haystack bound `L1`, verify
with the comparator over `L2` units, and on mismatch skip the candidate's
leading code point. -/
def findfirstStrLoop (D : Decoder) (hay needle : List Nat)
    (first_char L1 L2 : Nat) (s : Nat) : Option Nat :=
  match hf : findfirst D hay s first_char L1 with
  | none => none
  | some p =>
      if compare (hay.drop p) needle L2 = 0 then some p
      else findfirstStrLoop D hay needle first_char L1 L2 (p + (D.dec (hay.drop p)).2)
termination_by hay.length - s
decreasing_by
  have h1 := findfirst_some D hay s first_char L1 p hf
  have h2 := dec_pos_lt D hay p h1.2.2
  omega

/-- Substring `findfirst` (`src/drsl/nextline.hpp` lines 144-173): find
the needle (`needle`, bounded by `L2` units) inside the haystack suffix at
offset `s` (bounded by `L1` units).  A needle with zero bound or a leading
terminator unit matches vacuously at `s`; a bound of `(size_t)-1` is
replaced by the needle's measured length. -/
def findfirst_str (D : Decoder) (hay : List Nat) (s : Nat)
    (needle : List Nat) (L1 L2 : Nat) : Option Nat :=
  if L2 = 0 ∨ needle.headD 0 = 0 then some s
  else
    findfirstStrLoop D hay needle (getchar D needle 0) L1
      (if L2 = U64 - 1 then length needle else L2) s

/-- The decoded code points of a buffer suffix, up to the terminator. -/
def cpList (D : Decoder) (l : List Nat) : List Nat :=
  if h : (D.dec l).1 = 0 then []
  else (D.dec l).1 :: cpList D (l.drop (D.dec l).2)
termination_by l.length
decreasing_by
  have h2 := dec_pos D l h
  rw [List.length_drop]
  omega

/-- The positions and code points decoded when scanning `buf` from offset
`s` up to the terminator. -/
def cpPositions (D : Decoder) (buf : List Nat) (s : Nat) : List (Nat × Nat) :=
  if h : (D.dec (buf.drop s)).1 = 0 then []
  else (s, (D.dec (buf.drop s)).1) :: cpPositions D buf (s + (D.dec (buf.drop s)).2)
termination_by buf.length - s
decreasing_by
  have h2 := dec_pos_lt D buf s h
  omega

/-- The inner set-scanning loop of `findfirstof` (`src/drsl/nextline.hpp`
lines 250-266): `ch` is the current source code point, `k` the units it
consumed (`temp - str` in the source), `rem` the remaining suffix of the
character-set buffer and `budget` the remaining set bound (`temp_length`).
The budget is decremented by `k` — the source cursor's advance — after
each non-matching set member. -/
def ffoInner (D : Decoder) (ch k : Nat) (rem : List Nat) (budget : Nat) : Bool :=
  if h : 0 < budget ∧ (D.dec rem).1 ≠ 0 then
    if (D.dec rem).1 = ch then true
    else ffoInner D ch k (rem.drop (D.dec rem).2) (sub64 budget k)
  else false
termination_by rem.length
decreasing_by
  have h2 := dec_pos D rem h.2
  rw [List.length_drop]
  omega

/-- `findfirstof` (`src/drsl/nextline.hpp` lines 240-273): find the first
source code point (scanning from offset `s` with `size_t` budget
`strLength`) that equals some decoded member of the character-set buffer
`set` (scanned with budget `setLength`, reset for every source position). -/
def findfirstof (D : Decoder) (src set : List Nat) (s : Nat)
    (strLength setLength : Nat) : Option Nat :=
  if h : 0 < strLength ∧ (D.dec (src.drop s)).1 ≠ 0 then
    if ffoInner D (D.dec (src.drop s)).1 (D.dec (src.drop s)).2 set setLength then
      some s
    else
      findfirstof D src set (s + (D.dec (src.drop s)).2)
        (sub64 strLength (D.dec (src.drop s)).2) setLength
  else none
termination_by src.length - s
decreasing_by
  have h2 := dec_pos_lt D src s h.2
  omega

/-- The single-character scan can never match the target code point 0:
the loop guard tests the decoded code point against the terminator before
the equality test is reached. -/
theorem findfirst_null_target (D : Decoder) (buf : List Nat) :
    ∀ s c L : Nat, c = 0 → findfirst D buf s c L = none := by
  intro s c L
  induction s, c, L using findfirst.induct D buf with
  | case1 s L hg =>
      intro hc
      exact absurd hc hg.2
  | case2 s c L hg hne ih =>
      intro hc
      rw [findfirst, dif_pos hg, if_neg hne]
      exact ih hc
  | case3 s c L hg =>
      intro hc
      rw [findfirst, dif_neg hg]

/-- C10: for every decoder, buffer, start offset and bound, the
single-character `findfirst` invoked with the terminator code point 0 as
the target returns the not-found sentinel: the scan loop exits on decoding
the terminator before the equality test, so the terminator can never be
reported as a match. -/
theorem claim_C10 : ∀ (D : Decoder) (buf : List Nat) (s L : Nat),
    findfirst D buf s 0 L = none :=
  fun D buf s L => findfirst_null_target D buf s 0 L rfl

/-- C9: whenever `nextline` reports no line, it leaves all caller-visible
state exactly as it was on entry: the returned line view and cursor are
the ones passed in, unmodified. -/
theorem claim_C9 (D : Decoder) (buf : List Nat) (line : reference_string)
    (str : Nat) (h : (nextline D buf line str).1 = false) :
    nextline D buf line str = (false, line, str) := by
  unfold nextline at h ⊢
  by_cases h0 : (buf.drop str).headD 0 = 0
  · rw [if_pos h0]
  · rw [if_neg h0] at h
    simp at h

/-- Witness for C9 at a concrete input: the buffer holding only a
terminator, with a pre-existing line view that must survive untouched. -/
theorem claim_C9_witness :
    nextline asciiDec [0] ⟨5, 7⟩ 0 = (false, ⟨5, 7⟩, 0) :=
  claim_C9 asciiDec [0] ⟨5, 7⟩ 0 (by decide)

/-- C8: the substring `findfirst` with an empty needle — needle bound
zero, or a needle whose first code unit is the terminator — returns the
haystack's current position unchanged, never the not-found sentinel. -/
theorem claim_C8 (D : Decoder) (hay : List Nat) (s : Nat)
    (needle : List Nat) (L1 L2 : Nat)
    (h : L2 = 0 ∨ needle.headD 0 = 0) :
    findfirst_str D hay s needle L1 L2 = some s := by
  unfold findfirst_str
  rw [if_pos h]

/-- Witness for C8 at concrete inputs: a zero needle bound, and a needle
starting with the terminator. -/
theorem claim_C8_witness :
    findfirst_str asciiDec [97, 98, 0] 1 [120] 9 0 = some 1 ∧
      findfirst_str asciiDec [97, 98, 0] 0 [0, 120] 9 5 = some 0 :=
  ⟨claim_C8 asciiDec [97, 98, 0] 1 [120] 9 0 (Or.inl rfl),
    claim_C8 asciiDec [97, 98, 0] 0 [0, 120] 9 5 (Or.inr (by decide))⟩

/-- The unbounded scan underlying the single-character `findfirst`: the
position of the first occurrence of `c` decoded from offset `s`, paired
with the total code units consumed by the code points strictly before the
match; `none` when the terminator is decoded first.  This is the
declarative reference the amended bound semantics is stated against. -/
def scanSteps (D : Decoder) (buf : List Nat) (c : Nat) (s : Nat) :
    Option (Nat × Nat) :=
  if h : (D.dec (buf.drop s)).1 = 0 then none
  else if (D.dec (buf.drop s)).1 = c then some (s, 0)
  else
    (scanSteps D buf c (s + (D.dec (buf.drop s)).2)).map
      fun pt => (pt.1, (D.dec (buf.drop s)).2 + pt.2)
termination_by buf.length - s
decreasing_by
  have h2 := dec_pos_lt D buf s h
  omega

/-- A bound strictly larger than the units consumed before the match
always finds the match: no partial budget reaches zero and no decrement
wraps. -/
theorem findfirst_within_bound (D : Decoder) (buf : List Nat) (c : Nat) :
    ∀ s : Nat, ∀ L p t : Nat, scanSteps D buf c s = some (p, t) → t < L →
      L < U64 → findfirst D buf s c L = some p := by
  intro s
  induction s using scanSteps.induct D buf c with
  | case1 s h =>
      intro L p t hscan hlt hU
      rw [scanSteps, dif_pos h] at hscan
      cases hscan
  | case2 s h hc =>
      intro L p t hscan hlt hU
      rw [scanSteps, dif_neg h, if_pos hc] at hscan
      injection hscan with h1
      injection h1 with hp ht
      subst hp
      rw [findfirst, dif_pos ⟨by omega, h⟩, if_pos hc]
  | case3 s h hc ih =>
      intro L p t hscan hlt hU
      rw [scanSteps, dif_neg h, if_neg hc] at hscan
      obtain ⟨⟨p', t'⟩, hrec, hmap⟩ := Option.map_eq_some'.mp hscan
      injection hmap with hp ht
      subst hp
      have hk := dec_pos_lt D buf s h
      have hkL : (D.dec (buf.drop s)).2 ≤ L := by omega
      have hsub : sub64 L (D.dec (buf.drop s)).2 =
          L - (D.dec (buf.drop s)).2 := sub64_of_le _ _ hkL hU
      rw [findfirst, dif_pos ⟨by omega, h⟩, if_neg hc, hsub]
      exact ih _ p' t' hrec (by omega) (by omega)

/-- When the unbounded scan reaches the terminator without a match, every
bound returns the not-found sentinel. -/
theorem findfirst_no_match (D : Decoder) (buf : List Nat) (c : Nat) :
    ∀ s : Nat, ∀ L : Nat, scanSteps D buf c s = none →
      findfirst D buf s c L = none := by
  intro s
  induction s using scanSteps.induct D buf c with
  | case1 s h =>
      intro L hscan
      rw [findfirst, dif_neg (fun hh => hh.2 h)]
  | case2 s h hc =>
      intro L hscan
      rw [scanSteps, dif_neg h, if_pos hc] at hscan
      cases hscan
  | case3 s h hc ih =>
      intro L hscan
      rw [scanSteps, dif_neg h, if_neg hc] at hscan
      have hrec : scanSteps D buf c (s + (D.dec (buf.drop s)).2) = none :=
        Option.map_eq_none'.mp hscan
      by_cases hL : 0 < L
      · rw [findfirst, dif_pos ⟨hL, h⟩, if_neg hc]
        exact ih _ hrec
      · rw [findfirst, dif_neg (fun hh => hL hh.1)]

/-- Over a single-unit decoder the budget decreases by exactly one per
code point, so a bound not exceeding the units consumed before the match
(the match's unit offset from the scan start) is exhausted at a decode
boundary and the scan stops with not-found. -/
theorem findfirst_exact_bound_fails (D : Decoder)
    (hD : ∀ l : List Nat, (D.dec l).2 ≤ 1) (buf : List Nat) (c : Nat) :
    ∀ s : Nat, ∀ L p t : Nat, scanSteps D buf c s = some (p, t) → L ≤ t →
      L < U64 → findfirst D buf s c L = none := by
  intro s
  induction s using scanSteps.induct D buf c with
  | case1 s h =>
      intro L p t hscan hle hU
      rw [scanSteps, dif_pos h] at hscan
      cases hscan
  | case2 s h hc =>
      intro L p t hscan hle hU
      rw [scanSteps, dif_neg h, if_pos hc] at hscan
      injection hscan with h1
      injection h1 with hp ht
      have hL0 : L = 0 := by omega
      subst hL0
      rw [findfirst, dif_neg (fun hh => absurd hh.1 (lt_irrefl 0))]
  | case3 s h hc ih =>
      intro L p t hscan hle hU
      rw [scanSteps, dif_neg h, if_neg hc] at hscan
      obtain ⟨⟨p', t'⟩, hrec, hmap⟩ := Option.map_eq_some'.mp hscan
      injection hmap with hp ht
      subst hp
      have hk := dec_pos_lt D buf s h
      have hk1 : (D.dec (buf.drop s)).2 = 1 := le_antisymm (hD _) hk.2.1
      by_cases hL : 0 < L
      · have hsub : sub64 L (D.dec (buf.drop s)).2 =
            L - (D.dec (buf.drop s)).2 := sub64_of_le _ _ (by omega) hU
        rw [findfirst, dif_pos ⟨hL, h⟩, if_neg hc, hsub]
        exact ih _ p' t' hrec (by omega) (by omega)
      · rw [findfirst, dif_neg (fun hh => hL hh.1)]

/-- C2 counterexample: with the two-unit decoder `exDec`, the buffer
starting with the two-unit code point 51207 and the bound 1, the claim
says the match must not be considered (so the result would have to be the
not-found sentinel: the match's encoding straddles the bound, consuming 2
units while only 1 unit of budget remains), yet the code returns the
match: the budget is only tested for positivity before the decode, and is
decremented after the equality test. -/
theorem claim_C2_counterexample :
    findfirst exDec [200, 7, 0] 0 51207 1 = some 0 ∧
      findfirst exDec [200, 7, 0] 0 51207 1 ≠ none ∧
      1 < (exDec.dec [200, 7, 0]).2 := by
  have h1 : findfirst exDec [200, 7, 0] 0 51207 1 = some 0 := by
    rw [findfirst]
    norm_num [exDec, exDecFun]
  refine ⟨h1, ?_, by decide⟩
  rw [h1]
  simp

/-- C2 as amended: the bound is a budget of code units tested for
positivity before each decode and decremented by the consumed units after
the equality test (wrapping around `2 ^ 64` when a code point consumes
more than the remaining budget); a code point whose leading unit lies
within the budget is considered as a match even when its encoding
straddles the bound.  Consequently: a bound strictly greater than the
units consumed before the match always succeeds; when no match precedes
the terminator every bound fails; over single-unit decoders a bound not
exceeding the match's unit offset fails — so offset-plus-one succeeds
while the offset itself fails — and for multi-unit code points an
underflowing decrement wraps and lets the scan continue past the bound. -/
theorem claim_C2_amended :
    (∀ (D : Decoder) (buf : List Nat) (s c L : Nat), 0 < L →
        (D.dec (buf.drop s)).1 = c → c ≠ 0 →
        findfirst D buf s c L = some s) ∧
      (∀ (D : Decoder) (buf : List Nat) (c s L p t : Nat),
        scanSteps D buf c s = some (p, t) → t < L → L < U64 →
        findfirst D buf s c L = some p) ∧
      (∀ (D : Decoder) (buf : List Nat) (c s L : Nat),
        scanSteps D buf c s = none → findfirst D buf s c L = none) ∧
      (∀ D : Decoder, (∀ l : List Nat, (D.dec l).2 ≤ 1) →
        ∀ (buf : List Nat) (c s L p t : Nat),
        scanSteps D buf c s = some (p, t) → L ≤ t → L < U64 →
        findfirst D buf s c L = none) ∧
      (findfirst asciiDec [104, 101, 108, 108, 111, 0] 0 108 3 = some 2 ∧
        findfirst asciiDec [104, 101, 108, 108, 111, 0] 0 108 2 = none) ∧
      (findfirst exDec [97, 200, 7, 0] 0 51207 2 = some 1 ∧
        findfirst exDec [97, 200, 7, 0] 0 51207 1 = none) ∧
      findfirst exDec [200, 7, 120, 0] 0 120 1 = some 2 := by
  refine ⟨?_, ?_, ?_, ?_, ?_⟩
  · intro D buf s c L hL hc hc0
    rw [findfirst, dif_pos ⟨hL, by rw [hc]; exact hc0⟩, if_pos hc]
  · intro D buf c s L p t
    exact findfirst_within_bound D buf c s L p t
  · intro D buf c s L
    exact findfirst_no_match D buf c s L
  · intro D hD buf c s L p t
    exact findfirst_exact_bound_fails D hD buf c s L p t
  · refine ⟨⟨?_, ?_⟩, ⟨?_, ?_⟩, ?_⟩ <;>
      (repeat (rw [findfirst]; norm_num [asciiDec, asciiDecFun, exDec, exDecFun, sub64, U64]))

/-- Witness for the general conjunct of the amended C2: an immediate
match within a budget of one unit. -/
theorem claim_C2_witness :
    findfirst asciiDec [108, 0] 0 108 1 = some 0 :=
  claim_C2_amended.1 asciiDec [108, 0] 0 108 1 (by decide) (by decide) (by decide)

/-- The gap between a line's end and the cursor left by `nextlineLoop` is
a consumed delimiter: empty (final line), a decoded `'\n'`, or a decoded
`'\r'` followed by a decoded `'\n'`. -/
def delimOK (D : Decoder) (buf : List Nat) (e p : Nat) : Prop :=
  e = p ∨
    ((D.dec (buf.drop e)).1 = 10 ∧ e + (D.dec (buf.drop e)).2 = p) ∨
    ((D.dec (buf.drop e)).1 = 13 ∧
      (D.dec (buf.drop (e + (D.dec (buf.drop e)).2))).1 = 10 ∧
      e + (D.dec (buf.drop e)).2 +
        (D.dec (buf.drop (e + (D.dec (buf.drop e)).2))).2 = p)

/-- Structural facts about one `nextlineLoop` run: the view's start is the
saved scan start, the view's end lies between the scan position and the
final cursor, the consumed gap is a delimiter, and the end coincides with
the final cursor only when the loop stopped at the terminator. -/
theorem nextlineLoop_spec (D : Decoder) (buf : List Nat) (st s : Nat) :
    (nextlineLoop D buf st s).1.start = st ∧
      s ≤ (nextlineLoop D buf st s).1.stop ∧
      (nextlineLoop D buf st s).1.stop ≤ (nextlineLoop D buf st s).2 ∧
      delimOK D buf (nextlineLoop D buf st s).1.stop (nextlineLoop D buf st s).2 ∧
      ((nextlineLoop D buf st s).1.stop = (nextlineLoop D buf st s).2 →
        (buf.drop (nextlineLoop D buf st s).2).headD 0 = 0) := by
  induction s using nextlineLoop.induct D buf st with
  | case1 s h =>
      rw [nextlineLoop, dif_pos h]
      refine ⟨rfl, le_refl _, le_refl _, Or.inl rfl, fun _ => ?_⟩
      by_contra hh
      exact D.nonterm_cp _ hh h
  | case2 s h h13 h10 =>
      have h1 := dec_pos_lt D buf s h
      have h2 := dec_pos_lt D buf (s + (D.dec (buf.drop s)).2) (by rw [h10]; omega)
      rw [nextlineLoop, dif_neg h, if_pos h13, if_pos h10]
      dsimp only
      exact ⟨rfl, le_refl _, by omega, Or.inr (Or.inr ⟨h13, h10, rfl⟩),
        fun hh => absurd hh (by omega)⟩
  | case3 s h h13 h10 ih =>
      have h1 := dec_pos_lt D buf s h
      rw [nextlineLoop, dif_neg h, if_pos h13, if_neg h10]
      exact ⟨ih.1, by omega, ih.2.2.1, ih.2.2.2.1, ih.2.2.2.2⟩
  | case4 s h h13 h10 =>
      have h1 := dec_pos_lt D buf s h
      rw [nextlineLoop, dif_neg h, if_neg h13, if_pos h10]
      dsimp only
      exact ⟨rfl, le_refl _, by omega, Or.inr (Or.inl ⟨h10, rfl⟩),
        fun hh => absurd hh (by omega)⟩
  | case5 s h h13 h10 ih =>
      have h1 := dec_pos_lt D buf s h
      rw [nextlineLoop, dif_neg h, if_neg h13, if_neg h10]
      exact ⟨ih.1, by omega, ih.2.2.1, ih.2.2.2.1, ih.2.2.2.2⟩

/-- Adjacent unit slices concatenate to the enclosing slice. -/
theorem sliceU_append (buf : List Nat) (a b c : Nat) (hab : a ≤ b)
    (hbc : b ≤ c) : sliceU buf a b ++ sliceU buf b c = sliceU buf a c := by
  unfold sliceU
  have h1 : (buf.drop a).drop (b - a) = buf.drop b := by
    rw [List.drop_drop]
    congr 1
    omega
  have hc : c - a = (b - a) + (c - b) := by omega
  rw [hc, List.take_add, h1]

/-- C4: `nextline` reports no line exactly when the cursor points at the
terminator; a true result whose view ends at the returned cursor marks the
terminator-reached branch: the line then starts at the scan start, the
cursor rests on the terminator, and the immediately following call reports
no line. -/
theorem claim_C4 (D : Decoder) (buf : List Nat) (line : reference_string)
    (s : Nat) :
    ((nextline D buf line s).1 = false ↔ (buf.drop s).headD 0 = 0) ∧
      (∀ (l : reference_string) (s' : Nat),
        nextline D buf line s = (true, l, s') → l.stop = s' →
        l.start = s ∧ (buf.drop s').headD 0 = 0 ∧
          (nextline D buf l s').1 = false) := by
  unfold nextline
  by_cases h0 : (buf.drop s).headD 0 = 0
  · rw [if_pos h0]
    exact ⟨⟨fun _ => h0, fun _ => rfl⟩, fun l s' heq => by cases heq⟩
  · rw [if_neg h0]
    constructor
    · exact ⟨fun hh => Bool.noConfusion hh, fun hh => absurd hh h0⟩
    · intro l s' heq hstop
      have hsp := nextlineLoop_spec D buf s s
      have hl : l = (nextlineLoop D buf s s).1 := by
        cases heq
        rfl
      have hs' : s' = (nextlineLoop D buf s s).2 := by
        cases heq
        rfl
      subst hl hs'
      have hterm := hsp.2.2.2.2 hstop
      exact ⟨hsp.1, hterm, by rw [if_pos hterm]⟩

/-- Witness for C4 at a concrete input: the undelimited buffer
`[97]` (`"a"`) produces the remainder line `(0, 1)` with the cursor on the
terminator, and the following call reports no line. -/
theorem claim_C4_witness :
    (⟨0, 1⟩ : reference_string).start = 0 ∧
      (([97, 0] : List Nat).drop 1).headD 0 = 0 ∧
      (nextline asciiDec [97, 0] ⟨0, 1⟩ 1).1 = false :=
  (claim_C4 asciiDec [97, 0] ⟨0, 0⟩ 0).2 ⟨0, 1⟩ 1
    (by rw [nextline]; norm_num; rw [nextlineLoop]; norm_num [asciiDec, asciiDecFun]
        rw [nextlineLoop]; norm_num [asciiDec, asciiDecFun]) rfl

/-- C3: at every scan position, a decoded `'\r'` whose lookahead decodes
to `'\n'` ends the line before the `'\r'` with the cursor advanced past
both code points, while a `'\r'` with any other lookahead is ordinary
content (the scan simply continues past it); in particular
`"a\r\nb"` splits into `"a"`, `"b"` and `"a\rb"` stays one line. -/
theorem claim_C3 (D : Decoder) (buf : List Nat) (st s : Nat) :
    ((D.dec (buf.drop s)).1 = 13 →
      ((D.dec (buf.drop (s + (D.dec (buf.drop s)).2))).1 = 10 →
        nextlineLoop D buf st s =
          (⟨st, s⟩, s + (D.dec (buf.drop s)).2 +
            (D.dec (buf.drop (s + (D.dec (buf.drop s)).2))).2)) ∧
      ((D.dec (buf.drop (s + (D.dec (buf.drop s)).2))).1 ≠ 10 →
        nextlineLoop D buf st s =
          nextlineLoop D buf st (s + (D.dec (buf.drop s)).2))) ∧
      lineViews asciiDec [97, 13, 10, 98, 0] = [[97], [98]] ∧
      lineViews asciiDec [97, 13, 98, 0] = [[97, 13, 98]] := by
  refine ⟨fun h13 => ⟨fun h10 => ?_, fun h10 => ?_⟩, ?_, ?_⟩
  · rw [nextlineLoop, dif_neg (by rw [h13]; omega), if_pos h13, if_pos h10]
  · rw [nextlineLoop, dif_neg (by rw [h13]; omega), if_pos h13, if_neg h10]
  · simp [lineViews, linesRec, nextlineLoop, asciiDec, asciiDecFun, sliceU]
  · simp [lineViews, linesRec, nextlineLoop, asciiDec, asciiDecFun, sliceU]

/-- Witness for C3: the CRLF branch and the bare-CR branch of the loop,
exercised at the start of the concrete buffers `"\r\n"` and `"\rb"`. -/
theorem claim_C3_witness :
    nextlineLoop asciiDec [13, 10, 0] 0 0 = (⟨0, 0⟩, 2) ∧
      nextlineLoop asciiDec [13, 98, 0] 0 0 = nextlineLoop asciiDec [13, 98, 0] 0 1 := by
  constructor
  · exact (claim_C3 asciiDec [13, 10, 0] 0 0).1 (by decide) |>.1 (by decide)
  · exact (claim_C3 asciiDec [13, 98, 0] 0 0).1 (by decide) |>.2 (by decide)

/-- C1: iterating `nextline` from offset `s` of any buffer yields views
that partition the buffer: concatenating each line with its consumed
delimiter reproduces the buffer's units from `s` up to the terminator
position `t`, every recorded step is exactly what a `nextline` call at
that cursor returns (for any incoming line view), every consumed gap is an
empty, `'\n'` or `'\r\n'` delimiter, and the iteration stops (`nextline`
reports no line) exactly on reaching the terminator at `t`. -/
theorem claim_C1 (D : Decoder) (buf : List Nat) : ∀ s : Nat, s ≤ buf.length →
    ∃ t, s ≤ t ∧ t ≤ buf.length ∧ (buf.drop t).headD 0 = 0 ∧
      ((linesRec D buf s).map fun r =>
          sliceU buf r.1.start r.1.stop ++ sliceU buf r.1.stop r.2).flatten
        = sliceU buf s t ∧
      ∀ r ∈ linesRec D buf s,
        (∀ line : reference_string,
          nextline D buf line r.1.start = (true, r.1, r.2)) ∧
          delimOK D buf r.1.stop r.2 := by
  intro s
  induction s using linesRec.induct D buf with
  | case1 s h =>
      intro hs
      refine ⟨s, le_refl _, hs, h, ?_, ?_⟩
      · rw [linesRec, dif_pos h]
        simp [sliceU]
      · rw [linesRec, dif_pos h]
        intro r hr
        cases hr
  | case2 s h ih =>
      intro hs
      have hsp := nextlineLoop_spec D buf s s
      have hgt := nextlineLoop_gt D buf s s h
      obtain ⟨t, ht1, ht2, ht3, ht4, ht5⟩ := ih hgt.2
      refine ⟨t, by omega, ht2, ht3, ?_, ?_⟩
      · rw [linesRec, dif_neg h]
        simp only [List.map_cons, List.flatten_cons]
        rw [hsp.1,
          sliceU_append buf s (nextlineLoop D buf s s).1.stop
            (nextlineLoop D buf s s).2 hsp.2.1 hsp.2.2.1,
          ht4,
          sliceU_append buf s (nextlineLoop D buf s s).2 t
            (le_of_lt hgt.1) ht1]
      · rw [linesRec, dif_neg h]
        intro r hr
        rcases List.mem_cons.mp hr with hr1 | hr2
        · subst hr1
          refine ⟨fun line => ?_, hsp.2.2.2.1⟩
          rw [hsp.1]
          unfold nextline
          rw [if_neg h]
        · exact ht5 r hr2

/-- Witness for C1: the two-line buffer `"a\nb"`. -/
theorem claim_C1_witness :
    ∃ t, 0 ≤ t ∧ t ≤ ([97, 10, 98, 0] : List Nat).length ∧
      (([97, 10, 98, 0] : List Nat).drop t).headD 0 = 0 ∧
      ((linesRec asciiDec [97, 10, 98, 0] 0).map fun r =>
          sliceU [97, 10, 98, 0] r.1.start r.1.stop ++
            sliceU [97, 10, 98, 0] r.1.stop r.2).flatten
        = sliceU [97, 10, 98, 0] 0 t ∧
      ∀ r ∈ linesRec asciiDec [97, 10, 98, 0] 0,
        (∀ line : reference_string,
          nextline asciiDec [97, 10, 98, 0] line r.1.start = (true, r.1, r.2)) ∧
          delimOK asciiDec [97, 10, 98, 0] r.1.stop r.2 :=
  claim_C1 asciiDec [97, 10, 98, 0] 0 (by decide)

/-- Unfolding of the substring retry loop when the leading-character scan
fails. -/
theorem findfirstStrLoop_none (D : Decoder) (hay needle : List Nat)
    (fc L1 L2 s : Nat) (h : findfirst D hay s fc L1 = none) :
    findfirstStrLoop D hay needle fc L1 L2 s = none := by
  rw [findfirstStrLoop.eq_def]
  split
  · rfl
  · rename_i p hf
    rw [h] at hf
    cases hf

/-- Unfolding of the substring retry loop at a leading-character
candidate. -/
theorem findfirstStrLoop_some (D : Decoder) (hay needle : List Nat)
    (fc L1 L2 s p : Nat) (h : findfirst D hay s fc L1 = some p) :
    findfirstStrLoop D hay needle fc L1 L2 s =
      if compare (hay.drop p) needle L2 = 0 then some p
      else findfirstStrLoop D hay needle fc L1 L2 (p + (D.dec (hay.drop p)).2) := by
  rw [findfirstStrLoop.eq_def]
  split
  · rename_i hf
    rw [h] at hf
    cases hf
  · rename_i q hf
    rw [h] at hf
    cases hf
    rfl

/-- C5 counterexample: searching for `"ab"` in `"aaab"` with a haystack
bound of 2 code units returns the match at unit offset 2.  The bound's
window from the original position covers only units 0 and 1, so the
returned position proves that a repeated CharacterSearch invocation
(issued after two comparator mismatches) inspected and matched a haystack
code unit beyond the supplied bound, contradicting the claim that no unit
beyond the bound is ever inspected. -/
theorem claim_C5_counterexample :
    findfirst_str asciiDec [97, 97, 97, 98, 0] 0 [97, 98, 0] 2 2 = some 2 := by
  have h0 : findfirst asciiDec [97, 97, 97, 98, 0] 0 97 2 = some 0 := by
    rw [findfirst]
    norm_num [asciiDec, asciiDecFun]
  have h1 : findfirst asciiDec [97, 97, 97, 98, 0] 1 97 2 = some 1 := by
    rw [findfirst]
    norm_num [asciiDec, asciiDecFun]
  have h2 : findfirst asciiDec [97, 97, 97, 98, 0] 2 97 2 = some 2 := by
    rw [findfirst]
    norm_num [asciiDec, asciiDecFun]
  rw [findfirst_str]
  norm_num [U64, getchar, asciiDec_dec, asciiDecFun]
  rw [findfirstStrLoop_some _ _ _ _ _ _ _ _ h0]
  norm_num [compare, asciiDec_dec, asciiDecFun]
  rw [findfirstStrLoop_some _ _ _ _ _ _ _ _ h1]
  norm_num [compare, asciiDec_dec, asciiDecFun]
  rw [findfirstStrLoop_some _ _ _ _ _ _ _ _ h2]
  norm_num [compare]

/-- C5 as amended: the haystack bound is not decremented across retries —
after a comparator mismatch at candidate `p` the loop resumes as a fresh
leading-character search from just past `p`'s code point with the same
original bound value, so repeated invocations slide the bound's window
forward and may inspect (and match at) units beyond the original bound
measured from the initial position, as the search for `"ab"` in `"aaab"`
with bound 2 shows by returning offset 2. -/
theorem claim_C5_amended :
    (∀ (D : Decoder) (hay needle : List Nat) (fc L1 L2 s p : Nat),
        findfirst D hay s fc L1 = some p →
        compare (hay.drop p) needle L2 ≠ 0 →
        findfirstStrLoop D hay needle fc L1 L2 s =
          findfirstStrLoop D hay needle fc L1 L2 (p + (D.dec (hay.drop p)).2)) ∧
      findfirst_str asciiDec [97, 97, 97, 98, 0] 0 [97, 98, 0] 2 2 = some 2 := by
  constructor
  · intro D hay needle fc L1 L2 s p hf hcmp
    rw [findfirstStrLoop_some D hay needle fc L1 L2 s p hf, if_neg hcmp]
  · have h0 : findfirst asciiDec [97, 97, 97, 98, 0] 0 97 2 = some 0 := by
      rw [findfirst]
      norm_num [asciiDec, asciiDecFun]
    have h1 : findfirst asciiDec [97, 97, 97, 98, 0] 1 97 2 = some 1 := by
      rw [findfirst]
      norm_num [asciiDec, asciiDecFun]
    have h2 : findfirst asciiDec [97, 97, 97, 98, 0] 2 97 2 = some 2 := by
      rw [findfirst]
      norm_num [asciiDec, asciiDecFun]
    rw [findfirst_str]
    norm_num [U64, getchar, asciiDec_dec, asciiDecFun]
    rw [findfirstStrLoop_some _ _ _ _ _ _ _ _ h0]
    norm_num [compare, asciiDec_dec, asciiDecFun]
    rw [findfirstStrLoop_some _ _ _ _ _ _ _ _ h1]
    norm_num [compare, asciiDec_dec, asciiDecFun]
    rw [findfirstStrLoop_some _ _ _ _ _ _ _ _ h2]
    norm_num [compare]

/-- Witness for the general conjunct of the amended C5: the first
comparator mismatch of the `"ab"`-in-`"aaab"` search resumes the loop past
the candidate with the same bound. -/
theorem claim_C5_witness :
    findfirstStrLoop asciiDec [97, 97, 97, 98, 0] [97, 98, 0] 97 2 2 0 =
      findfirstStrLoop asciiDec [97, 97, 97, 98, 0] [97, 98, 0] 97 2 2
        (0 + (asciiDec.dec (([97, 97, 97, 98, 0] : List Nat).drop 0)).2) :=
  claim_C5_amended.1 asciiDec [97, 97, 97, 98, 0] [97, 98, 0] 97 2 2 0 0
    (by rw [findfirst]; norm_num [asciiDec, asciiDecFun]) (by decide)

/-- The inner set-scanning loop of `findfirstof` is blind to the unit
layout of the character set: its outcome depends only on the set's decoded
code-point sequence (and on the source advance `k` driving the budget),
because the budget decrement never consults the units the set cursor
consumed. -/
theorem ffoInner_cpList_eq (D : Decoder) (ch k : Nat) :
    ∀ (set1 : List Nat) (b : Nat) (set2 : List Nat),
      cpList D set1 = cpList D set2 →
      ffoInner D ch k set1 b = ffoInner D ch k set2 b := by
  intro set1 b
  induction set1, b using ffoInner.induct D ch k with
  | case1 rem b hg heq =>
      intro set2 hcp
      rw [cpList.eq_def D rem, dif_neg hg.2] at hcp
      by_cases h2 : (D.dec set2).1 = 0
      · rw [cpList.eq_def D set2, dif_pos h2] at hcp
        cases hcp
      · rw [cpList.eq_def D set2, dif_neg h2] at hcp
        injection hcp with hhead htail
        rw [ffoInner, dif_pos hg, if_pos heq,
          ffoInner, dif_pos ⟨hg.1, h2⟩, if_pos (by rw [← hhead]; exact heq)]
  | case2 rem b hg hne ih =>
      intro set2 hcp
      rw [cpList.eq_def D rem, dif_neg hg.2] at hcp
      by_cases h2 : (D.dec set2).1 = 0
      · rw [cpList.eq_def D set2, dif_pos h2] at hcp
        cases hcp
      · rw [cpList.eq_def D set2, dif_neg h2] at hcp
        injection hcp with hhead htail
        rw [ffoInner, dif_pos hg, if_neg hne]
        have hrhs : ffoInner D ch k set2 b =
            ffoInner D ch k (set2.drop (D.dec set2).2) (sub64 b k) := by
          rw [ffoInner, dif_pos ⟨hg.1, h2⟩, if_neg (by rw [← hhead]; exact hne)]
        rw [hrhs]
        exact ih (set2.drop (D.dec set2).2) htail
  | case3 rem b hg =>
      intro set2 hcp
      rw [ffoInner, dif_neg hg]
      by_cases hb : 0 < b
      · have hcp0 : (D.dec rem).1 = 0 := by
          by_contra hc
          exact hg ⟨hb, hc⟩
        rw [cpList.eq_def D rem, dif_pos hcp0] at hcp
        by_cases h2 : (D.dec set2).1 = 0
        · rw [ffoInner, dif_neg (fun hh => hh.2 h2)]
        · rw [cpList.eq_def D set2, dif_neg h2] at hcp
          cases hcp
      · rw [ffoInner, dif_neg (fun hh => hb hh.1)]

/-- C7: the remaining-set-budget decrement in `findfirstof`'s inner loop
equals the source cursor's per-step advance `k`, not the units the set
cursor itself consumed: the loop's outcome is invariant under re-encoding
the set with different unit widths (same decoded code points), while
changing only the source advance `k` changes the outcome on a fixed set —
and the asymmetry is observable end to end: the two-unit source code point
51207 present in the set is missed under set bound 2 because the budget
drops by the source's two units per member. -/
theorem claim_C7 :
    (∀ (D : Decoder) (ch k : Nat) (set1 : List Nat) (b : Nat)
        (set2 : List Nat), cpList D set1 = cpList D set2 →
        ffoInner D ch k set1 b = ffoInner D ch k set2 b) ∧
      (ffoInner exDec 51207 2 [65, 200, 7, 0] 2 = false ∧
        ffoInner exDec 51207 1 [65, 200, 7, 0] 2 = true) ∧
      findfirstof exDec [200, 7, 0] [65, 200, 7, 0] 0 (U64 - 1) 2 = none := by
  refine ⟨ffoInner_cpList_eq, ⟨?_, ?_⟩, ?_⟩
  · rw [ffoInner]
    norm_num [exDec_dec, exDecFun, sub64, U64]
    rw [ffoInner]
    norm_num
  · rw [ffoInner]
    norm_num [exDec_dec, exDecFun, sub64, U64]
    rw [ffoInner]
    norm_num [exDec_dec, exDecFun]
  · have hinner : ffoInner exDec 51207 2 [65, 200, 7, 0] 2 = false := by
      rw [ffoInner]
      norm_num [exDec_dec, exDecFun, sub64, U64]
      rw [ffoInner]
      norm_num
    rw [findfirstof]
    norm_num [exDec_dec, exDecFun, sub64, U64, hinner]
    rw [findfirstof]
    norm_num [exDec_dec, exDecFun]

/-- Witness for the general conjunct of C7: the sets `[200, 7]` and
`[200, 7, 0]` decode to the same single code point 51207 through `exDec`,
so the inner loop treats them identically. -/
theorem claim_C7_witness :
    ffoInner exDec 51207 1 [200, 7] 5 = ffoInner exDec 51207 1 [200, 7, 0] 5 :=
  claim_C7.1 exDec 51207 1 [200, 7] 5 [200, 7, 0]
    (by rw [cpList.eq_def exDec ([200, 7] : List Nat),
          cpList.eq_def exDec ([200, 7, 0] : List Nat)]
        norm_num [exDec_dec, exDecFun]
        rw [cpList.eq_def exDec ([] : List Nat),
          cpList.eq_def exDec ([0] : List Nat)]
        norm_num [exDec_dec, exDecFun])

/-- With a budget large enough never to underflow nor reach zero, the
inner set-scanning loop reports exactly whether the source code point
occurs among the set's decoded code points. -/
theorem ffoInner_contains (D : Decoder) (ch k : Nat) :
    ∀ (rem : List Nat) (b : Nat), 1 ≤ k → rem.length * k < b → b < U64 →
      ffoInner D ch k rem b = (cpList D rem).contains ch := by
  intro rem b
  induction rem, b using ffoInner.induct D ch k with
  | case1 rem b hg heq =>
      intro hk hb hbU
      rw [ffoInner, dif_pos hg, if_pos heq, cpList.eq_def D rem, dif_neg hg.2,
        heq]
      simp
  | case2 rem b hg hne ih =>
      intro hk hb hbU
      have hd := dec_pos D rem hg.2
      have hlen1 : 1 ≤ rem.length := by omega
      have hkP : k ≤ rem.length * k :=
        le_trans (by omega) (Nat.mul_le_mul_right k hlen1)
      have hkb : k ≤ b := by omega
      have hsub : sub64 b k = b - k := sub64_of_le b k hkb hbU
      have hdroplen : (rem.drop (D.dec rem).2).length =
          rem.length - (D.dec rem).2 := List.length_drop _ _
      have hstep : (rem.drop (D.dec rem).2).length * k ≤ rem.length * k - k := by
        have h1 : (rem.drop (D.dec rem).2).length ≤ rem.length - 1 := by omega
        calc (rem.drop (D.dec rem).2).length * k
            ≤ (rem.length - 1) * k := Nat.mul_le_mul_right k h1
          _ = rem.length * k - 1 * k := by rw [Nat.sub_mul]
          _ = rem.length * k - k := by rw [one_mul]
      rw [ffoInner, dif_pos hg, if_neg hne, cpList.eq_def D rem, dif_neg hg.2,
        ih hk (by rw [hsub]; omega) (by rw [hsub]; omega)]
      have hbeq : (ch == (D.dec rem).1) = false :=
        beq_eq_false_iff_ne.mpr fun hh => hne hh.symm
      rw [List.contains_cons, hbeq]
      simp
  | case3 rem b hg =>
      intro hk hb hbU
      have hb0 : 0 < b := by omega
      have hcp : (D.dec rem).1 = 0 := by
        by_contra hc
        exact hg ⟨hb0, hc⟩
      rw [ffoInner, dif_neg hg, cpList.eq_def D rem, dif_pos hcp]
      simp

/-- `findfirstof` with the default (`(size_t)-1`) bounds refines a
declarative specification: it returns the first source position, in
source order, whose decoded code point belongs to the set's decoded
code points, and the not-found sentinel when the terminator is reached
with no such position.  The length hypotheses keep the never-decremented
inner budget and the outer budget from ever reaching zero or wrapping. -/
theorem findfirstof_spec (D : Decoder) (src set : List Nat)
    (hsrc : src.length < 2 ^ 32) (hset : set.length < 2 ^ 32) :
    ∀ s strB setB, strB + s = U64 - 1 → setB = U64 - 1 →
      findfirstof D src set s strB setB =
        ((cpPositions D src s).find? fun pc =>
          (cpList D set).contains pc.2).map Prod.fst := by
  intro s strB setB
  induction s, strB, setB using findfirstof.induct D src set with
  | case1 s strB setB hg hinner =>
      intro hinv hset'
      have hU : U64 = 18446744073709551616 := by norm_num [U64]
      have hk := dec_pos_lt D src s hg.2
      have hbig : set.length * (D.dec (src.drop s)).2 < setB := by
        have h1 : set.length * (D.dec (src.drop s)).2 ≤
            (2 ^ 32 - 1) * (2 ^ 32 - 1) :=
          Nat.mul_le_mul (by omega) (by omega)
        have h2 : ((2 : Nat) ^ 32 - 1) * (2 ^ 32 - 1) < U64 - 1 := by
          norm_num [U64]
        omega
      have hcont := ffoInner_contains D (D.dec (src.drop s)).1
        (D.dec (src.drop s)).2 set setB (by omega) hbig (by omega)
      rw [hinner] at hcont
      rw [findfirstof, dif_pos hg, if_pos hinner, cpPositions.eq_def,
        dif_neg hg.2]
      have hfind : List.find? (fun pc => (cpList D set).contains pc.2)
          ((s, (D.dec (src.drop s)).1) ::
            cpPositions D src (s + (D.dec (src.drop s)).2))
          = some (s, (D.dec (src.drop s)).1) :=
        List.find?_cons_of_pos _ (by simpa using hcont.symm)
      rw [hfind]
      rfl
  | case2 s strB setB hg hinner ih =>
      intro hinv hset'
      have hU : U64 = 18446744073709551616 := by norm_num [U64]
      have hk := dec_pos_lt D src s hg.2
      have hkb : (D.dec (src.drop s)).2 ≤ strB := by omega
      have hsub : sub64 strB (D.dec (src.drop s)).2 =
          strB - (D.dec (src.drop s)).2 := sub64_of_le _ _ hkb (by omega)
      have hbig : set.length * (D.dec (src.drop s)).2 < setB := by
        have h1 : set.length * (D.dec (src.drop s)).2 ≤
            (2 ^ 32 - 1) * (2 ^ 32 - 1) :=
          Nat.mul_le_mul (by omega) (by omega)
        have h2 : ((2 : Nat) ^ 32 - 1) * (2 ^ 32 - 1) < U64 - 1 := by
          norm_num [U64]
        omega
      have hcont := ffoInner_contains D (D.dec (src.drop s)).1
        (D.dec (src.drop s)).2 set setB (by omega) hbig (by omega)
      have hinner' : ffoInner D (D.dec (src.drop s)).1 (D.dec (src.drop s)).2
          set setB = false := Bool.not_eq_true _ ▸ Bool.eq_false_iff.mpr hinner
      rw [hinner'] at hcont
      rw [findfirstof, dif_pos hg, if_neg hinner,
        ih (by rw [hsub]; omega) hset', cpPositions.eq_def D src s,
        dif_neg hg.2]
      have hfind : List.find? (fun pc => (cpList D set).contains pc.2)
          ((s, (D.dec (src.drop s)).1) ::
            cpPositions D src (s + (D.dec (src.drop s)).2))
          = List.find? (fun pc => (cpList D set).contains pc.2)
            (cpPositions D src (s + (D.dec (src.drop s)).2)) :=
        List.find?_cons_of_neg _ (by simpa using hcont.symm)
      rw [hfind]
  | case3 s strB setB hg =>
      intro hinv hset'
      have hU : U64 = 18446744073709551616 := by norm_num [U64]
      have hcp : (D.dec (src.drop s)).1 = 0 := by
        by_contra hc
        have hlt := dec_pos_lt D src s hc
        exact hg ⟨by omega, hc⟩
      rw [findfirstof, dif_neg hg, cpPositions.eq_def, dif_pos hcp]
      rfl

/-- C6: with the default no-limit bounds, `findfirstof` returns the
position of the earliest source code point (ordered by source position,
not by position within the set) equal to some decoded member of the set,
and the not-found sentinel when the source terminator is reached with no
member matching; over `"hello"` with set `"ol"` it returns the position
of the first `'l'` (offset 2), and with set `"xyz"` it returns not-found. -/
theorem claim_C6 (D : Decoder) (src set : List Nat)
    (hsrc : src.length < 2 ^ 32) (hset : set.length < 2 ^ 32) :
    findfirstof D src set 0 (U64 - 1) (U64 - 1) =
      ((cpPositions D src 0).find? fun pc =>
        (cpList D set).contains pc.2).map Prod.fst ∧
      findfirstof asciiDec [104, 101, 108, 108, 111, 0] [111, 108, 0] 0
        (U64 - 1) (U64 - 1) = some 2 ∧
      findfirstof asciiDec [104, 101, 108, 108, 111, 0] [120, 121, 122, 0] 0
        (U64 - 1) (U64 - 1) = none := by
  have hpos : cpPositions asciiDec [104, 101, 108, 108, 111, 0] 0 =
      [(0, 104), (1, 101), (2, 108), (3, 108), (4, 111)] := by
    repeat (rw [cpPositions.eq_def]; norm_num [asciiDec_dec, asciiDecFun])
  refine ⟨findfirstof_spec D src set hsrc hset 0 (U64 - 1) (U64 - 1)
    (by omega) rfl, ?_, ?_⟩
  · have hset1 : cpList asciiDec [111, 108, 0] = [111, 108] := by
      repeat (rw [cpList.eq_def]; norm_num [asciiDec_dec, asciiDecFun])
    rw [findfirstof_spec asciiDec [104, 101, 108, 108, 111, 0] [111, 108, 0]
      (by norm_num) (by norm_num) 0 (U64 - 1) (U64 - 1) (by omega) rfl,
      hpos, hset1]
    decide
  · have hset2 : cpList asciiDec [120, 121, 122, 0] = [120, 121, 122] := by
      repeat (rw [cpList.eq_def]; norm_num [asciiDec_dec, asciiDecFun])
    rw [findfirstof_spec asciiDec [104, 101, 108, 108, 111, 0]
      [120, 121, 122, 0] (by norm_num) (by norm_num) 0 (U64 - 1) (U64 - 1)
      (by omega) rfl, hpos, hset2]
    decide

/-- Witness for C6: the `"hello"`/`"ol"` instance of the general
refinement. -/
theorem claim_C6_witness :
    findfirstof asciiDec [104, 101, 108, 108, 111, 0] [111, 108, 0] 0
        (U64 - 1) (U64 - 1) =
      ((cpPositions asciiDec [104, 101, 108, 108, 111, 0] 0).find? fun pc =>
        (cpList asciiDec [111, 108, 0]).contains pc.2).map Prod.fst :=
  (claim_C6 asciiDec [104, 101, 108, 108, 111, 0] [111, 108, 0]
    (by norm_num) (by norm_num)).1

end drsl
